import Mathlib

/-!
Verification development for the transaction serialization core
(`wallet-crypto/src/tx.rs` of js-cardano-wasm).

The core file defines `Hash`, `Coin`, `TxOut`, `TxIn`, `TxInWitness`,
`Tx`, `TxAux` and their binary (CBOR) codecs.  The general-purpose CBOR
primitives, the CRC32 checksum wrapper and the address type live in
collaborator modules that are not part of the core source; those are
modelled here from the specification (each such definition carries a
doc comment starting with `Modelled from the spec:`).

Bytes are modelled as natural numbers; a byte produced by the encoders
is always `< 256`.  Buffers are `List Nat`.  Fallible decoding returns
`Except Error (value, remaining buffer)`.
-/

set_option maxRecDepth 10000

/-- Decidable equality of fallible results, used to evaluate the codec
on concrete buffers inside proofs. -/
instance {ε α : Type} [DecidableEq ε] [DecidableEq α] : DecidableEq (Except ε α) :=
  fun a b =>
    match a, b with
    | .error e, .error f =>
      if h : e = f then .isTrue (by rw [h]) else .isFalse (by intro c; cases c; exact h rfl)
    | .error _, .ok _ => .isFalse (by intro c; cases c)
    | .ok _, .error _ => .isFalse (by intro c; cases c)
    | .ok x, .ok y =>
      if h : x = y then .isTrue (by rw [h]) else .isFalse (by intro c; cases c; exact h rfl)

namespace cbor

namespace decode

/-- Modelled from the spec: the error type of the external codec
(`cbor::decode::Error`).  The core source only constructs the
`Custom` variant; the others are produced by the collaborator
primitives (buffer under-run, wrong item kind, checksum failure). -/
inductive Error where
  | NotEnoughBytes
  | Expected (kind : String)
  | Custom (msg : String)
deriving DecidableEq, Repr

/-- Read `k` raw bytes from the front of the buffer. -/
def readBytes : Nat → List Nat → Except Error (List Nat × List Nat)
  | 0, buf => .ok ([], buf)
  | _ + 1, [] => .error .NotEnoughBytes
  | k + 1, b :: buf =>
    match readBytes k buf with
    | .error e => .error e
    | .ok (bytes, rest) => .ok (b :: bytes, rest)

/-- Read `k` bytes as a big-endian unsigned integer, accumulating into `acc`. -/
def readBE (acc : Nat) : Nat → List Nat → Except Error (Nat × List Nat)
  | 0, buf => .ok (acc, buf)
  | _ + 1, [] => .error .NotEnoughBytes
  | k + 1, b :: buf => readBE (acc * 256 + b) k buf

/-- Modelled from the spec: the self-describing item header of the
external codec.  A header byte holds a 3-bit major type and a 5-bit
additional-information field; values 0..23 are immediate, 24/25/26/27
announce a 1/2/4/8-byte big-endian value. -/
def readHeader (buf : List Nat) : Except Error (Nat × Nat × List Nat) :=
  match buf with
  | [] => .error .NotEnoughBytes
  | b :: rest =>
    let major := b / 32
    let info := b % 32
    if info < 24 then .ok (major, info, rest)
    else if info = 24 then
      match readBE 0 1 rest with
      | .error e => .error e
      | .ok (v, r) => .ok (major, v, r)
    else if info = 25 then
      match readBE 0 2 rest with
      | .error e => .error e
      | .ok (v, r) => .ok (major, v, r)
    else if info = 26 then
      match readBE 0 4 rest with
      | .error e => .error e
      | .ok (v, r) => .ok (major, v, r)
    else if info = 27 then
      match readBE 0 8 rest with
      | .error e => .error e
      | .ok (v, r) => .ok (major, v, r)
    else .error (.Custom "unsupported additional information")

/-- Modelled from the spec: read an unsigned-integer field (major type 0). -/
def uint (buf : List Nat) : Except Error (Nat × List Nat) :=
  match readHeader buf with
  | .error e => .error e
  | .ok (major, v, rest) =>
    if major = 0 then .ok (v, rest) else .error (.Expected "uint")

/-- Modelled from the spec: read a length-prefixed byte string (major type 2). -/
def bs (buf : List Nat) : Except Error (List Nat × List Nat) :=
  match readHeader buf with
  | .error e => .error e
  | .ok (major, len, rest) =>
    if major = 2 then readBytes len rest else .error (.Expected "bytestring")

/-- Modelled from the spec: read the array-length framing marker
(major type 4), returning the announced element count. -/
def array_start (buf : List Nat) : Except Error (Nat × List Nat) :=
  match readHeader buf with
  | .error e => .error e
  | .ok (major, len, rest) =>
    if major = 4 then .ok (len, rest) else .error (.Expected "array")

/-- Modelled from the spec: read the map-length framing marker
(major type 5), returning the announced pair count. -/
def map_start (buf : List Nat) : Except Error (Nat × List Nat) :=
  match readHeader buf with
  | .error e => .error e
  | .ok (major, len, rest) =>
    if major = 5 then .ok (len, rest) else .error (.Expected "map")

/-- Modelled from the spec: read a semantic tag (major type 6). -/
def tag (buf : List Nat) : Except Error (Nat × List Nat) :=
  match readHeader buf with
  | .error e => .error e
  | .ok (major, v, rest) =>
    if major = 6 then .ok (v, rest) else .error (.Expected "tag")

end decode

namespace encode

/-- Big-endian byte expansion of `n` on `k` bytes (low bytes last). -/
def toBE : Nat → Nat → List Nat
  | 0, _ => []
  | k + 1, n => toBE k (n / 256) ++ [n % 256]

/-- Modelled from the spec: emit an item header with the given major type
and value, using the shortest canonical length form. -/
def encHeader (major n : Nat) : List Nat :=
  if n < 24 then [major * 32 + n]
  else if n < 2 ^ 8 then (major * 32 + 24) :: toBE 1 n
  else if n < 2 ^ 16 then (major * 32 + 25) :: toBE 2 n
  else if n < 2 ^ 32 then (major * 32 + 26) :: toBE 4 n
  else (major * 32 + 27) :: toBE 8 n

/-- Modelled from the spec: encode an unsigned-integer field. -/
def uint (n : Nat) : List Nat := encHeader 0 n

/-- Modelled from the spec: encode a length-prefixed byte string. -/
def bs (b : List Nat) : List Nat := encHeader 2 b.length ++ b

/-- Modelled from the spec: emit the array-length framing marker. -/
def array_start (n : Nat) : List Nat := encHeader 4 n

/-- Modelled from the spec: emit the map-length framing marker. -/
def map_start (n : Nat) : List Nat := encHeader 5 n

/-- Modelled from the spec: emit a semantic tag. -/
def tag (n : Nat) : List Nat := encHeader 6 n

end encode

/-- One step of the bit-level CRC32 update (reflected polynomial). -/
def crc32UpdateBit (crc : Nat) : Nat :=
  if crc % 2 = 1 then Nat.xor (crc / 2) 0xEDB88320 else crc / 2

/-- Fold one input byte into the running CRC32 state.  Input bytes are
octets, so only the low 8 bits take part (made explicit by the mask). -/
def crc32UpdateByte (crc byte : Nat) : Nat :=
  crc32UpdateBit^[8] (Nat.xor crc (byte % 256))

/-- Modelled from the spec: the 32-bit checksum appended by the
checksum-wrapped sub-encoding (standard CRC32, as pinned down by the
conformance test vector). -/
def crc32 (bytes : List Nat) : Nat :=
  Nat.xor (bytes.foldl crc32UpdateByte 0xFFFFFFFF) 0xFFFFFFFF

namespace hs

namespace util

/-- Modelled from the spec: the generic checksum-wrapped encoder.  The
payload is serialized, embedded as a tagged byte string, and followed by
the CRC32 of the serialized bytes, inside a 2-element array. -/
def encode_with_crc32 {α : Type} (enc : α → List Nat) (x : α) : List Nat :=
  let inner := enc x
  cbor.encode.array_start 2 ++ cbor.encode.tag 24 ++
    cbor.encode.bs inner ++ cbor.encode.uint (cbor.crc32 inner)

/-- Modelled from the spec: the generic checksum-wrapped decoder.  It
reads the 2-element array, the tag-24 byte string and the checksum,
verifies the CRC32 of the embedded bytes, and then decodes the payload
out of the embedded bytes. -/
def decode_with_crc32 {α : Type} (dec : List Nat → Except cbor.decode.Error (α × List Nat))
    (buf : List Nat) : Except cbor.decode.Error (α × List Nat) :=
  match cbor.decode.array_start buf with
  | .error e => .error e
  | .ok (l, b1) =>
    if l ≠ 2 then .error (.Custom "invalid crc32 structure") else
    match cbor.decode.tag b1 with
    | .error e => .error e
    | .ok (t, b2) =>
      if t ≠ 24 then .error (.Custom "invalid tag") else
      match cbor.decode.bs b2 with
      | .error e => .error e
      | .ok (inner, b3) =>
        match cbor.decode.uint b3 with
        | .error e => .error e
        | .ok (crc, b4) =>
          if cbor.crc32 inner ≠ crc then .error (.Custom "Invalid CRC32") else
          match dec inner with
          | .error e => .error e
          | .ok (v, _) => .ok (v, b4)

end util

end hs

end cbor

namespace address

/-- Modelled from the spec: the address type discriminant; the
conformance vector uses the public-key type. -/
inductive AddrType where
  | ATPubKey
  | ATScript
  | ATRedeem
deriving DecidableEq, Repr

/-- Numeric discriminant of an address type. -/
def AddrType.toNat : AddrType → Nat
  | .ATPubKey => 0
  | .ATScript => 1
  | .ATRedeem => 2

/-- Modelled from the spec: recover an address type from its numeric
discriminant; unknown discriminants are rejected. -/
def AddrType.fromNat (n : Nat) : Except cbor.decode.Error AddrType :=
  if n = 0 then .ok .ATPubKey
  else if n = 1 then .ok .ATScript
  else if n = 2 then .ok .ATRedeem
  else .error (.Custom "unknown address type")

/-- Modelled from the spec: the hierarchical-deterministic derivation
path payload attached to an address (`hdpayload::HDAddressPayload`). -/
structure HDAddressPayload where
  payload : List Nat
deriving DecidableEq, Repr

/-- Build a derivation path payload from a byte vector. -/
def HDAddressPayload.from_vec (v : List Nat) : HDAddressPayload := ⟨v⟩

/-- Modelled from the spec: the stake distribution attribute of an
address; the bootstrap-era default carries no data. -/
inductive StakeDistribution where
  | BootstrapEraDistr
  | SingleKeyDistr (stakeholder : List Nat)
deriving DecidableEq, Repr

/-- The bootstrap-era default stake distribution. -/
def StakeDistribution.new_bootstrap_era : StakeDistribution := .BootstrapEraDistr

/-- Modelled from the spec: the optional attributes of an address:
a stake distribution (bootstrap-era default when absent) and an
optional derivation path. -/
structure Attributes where
  derivation_path : Option HDAddressPayload
  stake_distribution : StakeDistribution
deriving DecidableEq, Repr

/-- Modelled from the spec: attributes are a map from small integer keys
to byte-string values; key 0 carries the stake distribution (absent for
the bootstrap-era default), key 1 carries the derivation path, itself a
byte string nested inside the value byte string. -/
def Attributes.encode (a : Attributes) : List Nat :=
  let sdE : List Nat :=
    match a.stake_distribution with
    | .BootstrapEraDistr => []
    | .SingleKeyDistr s => cbor.encode.uint 0 ++ cbor.encode.bs s
  let dpE : List Nat :=
    match a.derivation_path with
    | none => []
    | some p => cbor.encode.uint 1 ++ cbor.encode.bs (cbor.encode.bs p.payload)
  let n : Nat :=
    (match a.stake_distribution with
     | .BootstrapEraDistr => 0
     | .SingleKeyDistr _ => 1) +
    (match a.derivation_path with
     | none => 0
     | some _ => 1)
  cbor.encode.map_start n ++ sdE ++ dpE

/-- Modelled from the spec: read the announced number of key/value
attribute pairs, starting from the bootstrap-era defaults. -/
def Attributes.decodeLoop : Nat → Attributes → List Nat →
    Except cbor.decode.Error (Attributes × List Nat)
  | 0, acc, buf => .ok (acc, buf)
  | n + 1, acc, buf =>
    match cbor.decode.uint buf with
    | .error e => .error e
    | .ok (k, b1) =>
      match cbor.decode.bs b1 with
      | .error e => .error e
      | .ok (v, b2) =>
        if k = 0 then
          Attributes.decodeLoop n
            { acc with stake_distribution := .SingleKeyDistr v } b2
        else if k = 1 then
          match cbor.decode.bs v with
          | .error e => .error e
          | .ok (p, _) =>
            Attributes.decodeLoop n
              { acc with derivation_path := some (HDAddressPayload.from_vec p) } b2
        else .error (.Custom "unknown address attribute")

/-- Modelled from the spec: decode the attribute map. -/
def Attributes.decode (buf : List Nat) :
    Except cbor.decode.Error (Attributes × List Nat) :=
  match cbor.decode.map_start buf with
  | .error e => .error e
  | .ok (n, rest) =>
    Attributes.decodeLoop n ⟨none, .BootstrapEraDistr⟩ rest

/-- Modelled from the spec: an extended address (`address::ExtendedAddr`):
a 28-byte address hash, the attributes, and the address type. -/
structure ExtendedAddr where
  addr : List Nat
  attributes : Attributes
  addr_type : AddrType
deriving DecidableEq, Repr

/-- Modelled from the spec: an extended address serializes as a 3-element
array holding the address hash bytes, the attribute map, and the numeric
address type, in that order. -/
def ExtendedAddr.encode (e : ExtendedAddr) : List Nat :=
  cbor.encode.array_start 3 ++ cbor.encode.bs e.addr ++
    Attributes.encode e.attributes ++ cbor.encode.uint e.addr_type.toNat

/-- Modelled from the spec: decode an extended address from its
3-element array form. -/
def ExtendedAddr.decode (buf : List Nat) :
    Except cbor.decode.Error (ExtendedAddr × List Nat) :=
  match cbor.decode.array_start buf with
  | .error e => .error e
  | .ok (l, b1) =>
    if l ≠ 3 then .error (.Custom "invalid ExtendedAddr structure") else
    match cbor.decode.bs b1 with
    | .error e => .error e
    | .ok (addr, b2) =>
      match Attributes.decode b2 with
      | .error e => .error e
      | .ok (attrs, b3) =>
        match cbor.decode.uint b3 with
        | .error e => .error e
        | .ok (tn, b4) =>
          match AddrType.fromNat tn with
          | .error e => .error e
          | .ok ty => .ok (⟨addr, attrs, ty⟩, b4)

end address

/-- Blake2b 256 bits digest container, tagged at the type level with the
kind of value it identifies.  The parameter is phantom: no field mentions
it.  The Rust digest field is a `[u8; 32]` array; it is modelled as a
byte list, with the 32-byte invariant carried by the operations. -/
structure Hash (T : Type) where
  digest : List Nat
deriving DecidableEq, Repr

/-- Wrap an already-computed 32-byte digest. -/
def Hash.from_bytes {T : Type} (bytes : List Nat) : Hash T :=
  { digest := bytes }

/-- Validate that a byte slice is exactly 32 bytes long and wrap it. -/
def Hash.from_slice {T : Type} (bytes : List Nat) : Option (Hash T) :=
  if bytes.length ≠ 32 then none
  else some (Hash.from_bytes bytes)

/-- Lowercase hexadecimal digit for a value below 16. -/
def hexDigit (n : Nat) : Char :=
  if n < 10 then Char.ofNat (48 + n) else Char.ofNat (87 + n)

/-- Lowercase hexadecimal rendering of one byte without padding, as the
Rust `{:x}` format produces for a `u8`: one digit below 16, two digits
otherwise. -/
def natHexDigits (n : Nat) : List Char :=
  if n < 16 then [hexDigit n] else [hexDigit (n / 16), hexDigit (n % 16)]

/-- The `Display` rendering of a hash: each digest byte in sequence,
padded with a leading zero below `0x10`, bare `{:x}` otherwise. -/
def Hash.display {T : Type} (h : Hash T) : List Char :=
  h.digest.foldl
    (fun acc byte =>
      acc ++ (if byte < 0x10 then '0' :: natHexDigits byte else natHexDigits byte))
    []

/-- Serialize a hash as a length-prefixed byte string. -/
def Hash.encode {T : Type} (h : Hash T) : List Nat :=
  cbor.encode.bs h.digest

/-- Decode a hash: read a byte string and validate its length. -/
def Hash.decode {T : Type} (buf : List Nat) :
    Except cbor.decode.Error (Hash T × List Nat) :=
  match cbor.decode.bs buf with
  | .error e => .error e
  | .ok (bytes, rest) =>
    match Hash.from_slice (T := T) bytes with
    | none => .error (.Custom "invalid length for Hash")
    | some v => .ok (v, rest)

/-- Marker standing for `Tx` in the phantom positions `Hash<Tx>` and
`Signature<Tx>`.  The Rust parameter is phantom (never stored), so the
mutual reference between `Tx` and `TxIn` carries no data; the marker
breaks the definition cycle that Lean structures cannot express. -/
inductive TxMark where
  | mk
deriving DecidableEq, Repr

/-- Hash of the serialisation CBOR of a Tx (`type TxId = Hash<Tx>`). -/
def TxId : Type := Hash TxMark

instance : DecidableEq TxId :=
  inferInstanceAs (DecidableEq (Hash TxMark))

instance : Repr TxId :=
  inferInstanceAs (Repr (Hash TxMark))

/-- Maximum amount of currency: 45 billion ada, in lovelace. -/
def MAX_COIN : Nat := 45000000000000000

/-- A bounded non-negative amount (`Coin(u64)` in the source). -/
structure Coin where
  value : Nat
deriving DecidableEq, Repr

/-- Construct a coin, enforcing the supply ceiling. -/
def Coin.new (v : Nat) : Option Coin :=
  if v ≤ MAX_COIN then some { value := v } else none

/-- Serialize a coin as an unsigned-integer field. -/
def Coin.encode (c : Coin) : List Nat :=
  cbor.encode.uint c.value

/-- Decode a coin: read an unsigned integer, then apply the bound check
of `Coin.new`. -/
def Coin.decode (buf : List Nat) : Except cbor.decode.Error (Coin × List Nat) :=
  match cbor.decode.uint buf with
  | .error e => .error e
  | .ok (v, rest) =>
    match Coin.new v with
    | none => .error (.Custom "Coin out of bound")
    | some c => .ok (c, rest)

/-- One transaction output: a destination address plus an amount. -/
structure TxOut where
  address : address.ExtendedAddr
  value : Coin
deriving DecidableEq, Repr

/-- Construct a transaction output. -/
def TxOut.new (addr : address.ExtendedAddr) (value : Coin) : TxOut :=
  { address := addr, value := value }

/-- Serialize an output: a 2-element array holding the checksum-wrapped
address and then the coin. -/
def TxOut.encode (t : TxOut) : List Nat :=
  cbor.encode.array_start 2 ++
    cbor.hs.util.encode_with_crc32 address.ExtendedAddr.encode t.address ++
    Coin.encode t.value

/-- Decode an output: check the 2-element array framing, decode the
checksum-wrapped address, then decode the coin. -/
def TxOut.decode (buf : List Nat) : Except cbor.decode.Error (TxOut × List Nat) :=
  match cbor.decode.array_start buf with
  | .error e => .error e
  | .ok (l, b1) =>
    if l ≠ 2 then .error (.Custom "TxOut should contains 2 elements") else
    match cbor.hs.util.decode_with_crc32 address.ExtendedAddr.decode b1 with
    | .error e => .error e
    | .ok (addr, b2) =>
      match Coin.decode b2 with
      | .error e => .error e
      | .ok (value, b3) => .ok (TxOut.new addr value, b3)

/-- CBOR encoded TxOut: the conformance test vector from the source. -/
def TX_OUT : List Nat :=
  [0x82, 0x82, 0xd8, 0x18, 0x58, 0x29, 0x83, 0x58, 0x1c, 0x83, 0xee, 0xa1,
   0xb5, 0xec, 0x8e, 0x80, 0x26, 0x65, 0x81, 0x46, 0x4a, 0xee, 0x0e, 0x2d,
   0x6a, 0x45, 0xfd, 0x6d, 0x7b, 0x9e, 0x1a, 0x98, 0x3a, 0x50, 0x48, 0xcd,
   0x15, 0xa1, 0x01, 0x46, 0x45, 0x01, 0x02, 0x03, 0x04, 0x05, 0x00, 0x1a,
   0x9d, 0x45, 0x88, 0x4a, 0x18, 0x2a]

/-- Extended public key bytes (`hdwallet::XPub`, an external
collaborator; only its byte content matters to the codec). -/
structure XPub where
  bytes : List Nat
deriving DecidableEq, Repr

/-- Signature bytes, tagged with the type of the signed value
(`hdwallet::Signature<T>`, an external collaborator). -/
structure Signature (T : Type) where
  bytes : List Nat
deriving DecidableEq, Repr

/-- Placeholder type for still-undefined payload formats (`type TODO = u8`). -/
abbrev TODO : Type := Nat

abbrev ValidatorScript : Type := TODO
abbrev RedeemerScript : Type := TODO
abbrev RedeemPublicKey : Type := TODO
abbrev RedeemSignature : Type := TODO

/-- Proof authorizing an input to be spent; one of three mutually
exclusive forms. -/
inductive TxInWitness where
  | PkWitness (key : XPub) (sig : Signature TxMark)
  | ScriptWitness (validator : ValidatorScript) (redeemer : RedeemerScript)
  | RedeemWitness (key : RedeemPublicKey) (sig : RedeemSignature)
deriving DecidableEq, Repr

/-- One transaction input: a prior transaction identifier plus an output
index within it (`struct TxIn(TxId, u32)`). -/
structure TxIn where
  id : TxId
  index : Nat
deriving DecidableEq, Repr

/-- Construct a transaction input. -/
def TxIn.new (id : TxId) (index : Nat) : TxIn :=
  { id := id, index := index }

/-- A transaction: an ordered list of inputs and an ordered list of
outputs (the reserved attributes slot currently carries no data). -/
structure Tx where
  inputs : List TxIn
  outputs : List TxOut
deriving DecidableEq, Repr

/-- A transaction paired with its witness list: the unit broadcast on
the network. -/
structure TxAux where
  tx : Tx
  witnesses : List TxInWitness
deriving DecidableEq, Repr

/-- Modelled from the spec: a homogeneous sequence serializes as an
array-length marker followed by the items in order. -/
def encodeList {α : Type} (enc : α → List Nat) (xs : List α) : List Nat :=
  cbor.encode.array_start xs.length ++ xs.foldr (fun x acc => enc x ++ acc) []

/-- Modelled from the spec: read `n` consecutive items of a sequence. -/
def decodeListLoop {α : Type} (dec : List Nat → Except cbor.decode.Error (α × List Nat)) :
    Nat → List Nat → Except cbor.decode.Error (List α × List Nat)
  | 0, buf => .ok ([], buf)
  | n + 1, buf =>
    match dec buf with
    | .error e => .error e
    | .ok (x, rest) =>
      match decodeListLoop dec n rest with
      | .error e => .error e
      | .ok (xs, rest2) => .ok (x :: xs, rest2)

/-- Modelled from the spec: decode a homogeneous sequence from its
array-length marker and items. -/
def decodeList {α : Type} (dec : List Nat → Except cbor.decode.Error (α × List Nat))
    (buf : List Nat) : Except cbor.decode.Error (List α × List Nat) :=
  match cbor.decode.array_start buf with
  | .error e => .error e
  | .ok (n, rest) => decodeListLoop dec n rest

/-- Modelled from the spec: a `TxIn` has 2 logical fields and is framed
as a 2-element array: the transaction identifier hash, then the output
index. -/
def TxIn.encode (t : TxIn) : List Nat :=
  cbor.encode.array_start 2 ++ Hash.encode t.id ++ cbor.encode.uint t.index

/-- Modelled from the spec: decode a `TxIn`, verifying the 2-element
array framing before reading the fields. -/
def TxIn.decode (buf : List Nat) : Except cbor.decode.Error (TxIn × List Nat) :=
  match cbor.decode.array_start buf with
  | .error e => .error e
  | .ok (l, b1) =>
    if l ≠ 2 then .error (.Custom "TxIn should contains 2 elements") else
    match Hash.decode (T := TxMark) b1 with
    | .error e => .error e
    | .ok (id, b2) =>
      match cbor.decode.uint b2 with
      | .error e => .error e
      | .ok (idx, b3) => .ok (TxIn.new id idx, b3)

/-- Modelled from the spec: each witness variant is framed as an array
holding a leading variant discriminant followed by its 2 payload fields,
in declared order. -/
def TxInWitness.encode : TxInWitness → List Nat
  | .PkWitness key sig =>
    cbor.encode.array_start 3 ++ cbor.encode.uint 0 ++
      cbor.encode.bs key.bytes ++ cbor.encode.bs sig.bytes
  | .ScriptWitness validator redeemer =>
    cbor.encode.array_start 3 ++ cbor.encode.uint 1 ++
      cbor.encode.uint validator ++ cbor.encode.uint redeemer
  | .RedeemWitness key sig =>
    cbor.encode.array_start 3 ++ cbor.encode.uint 2 ++
      cbor.encode.uint key ++ cbor.encode.uint sig

/-- Modelled from the spec: decode a witness, verifying the array
framing before reading the discriminant and the 2 payload fields;
unknown discriminants are rejected. -/
def TxInWitness.decode (buf : List Nat) :
    Except cbor.decode.Error (TxInWitness × List Nat) :=
  match cbor.decode.array_start buf with
  | .error e => .error e
  | .ok (l, b1) =>
    if l ≠ 3 then .error (.Custom "TxInWitness should contains 3 elements") else
    match cbor.decode.uint b1 with
    | .error e => .error e
    | .ok (disc, b2) =>
      if disc = 0 then
        match cbor.decode.bs b2 with
        | .error e => .error e
        | .ok (key, b3) =>
          match cbor.decode.bs b3 with
          | .error e => .error e
          | .ok (sig, b4) => .ok (.PkWitness ⟨key⟩ ⟨sig⟩, b4)
      else if disc = 1 then
        match cbor.decode.uint b2 with
        | .error e => .error e
        | .ok (validator, b3) =>
          match cbor.decode.uint b3 with
          | .error e => .error e
          | .ok (redeemer, b4) => .ok (.ScriptWitness validator redeemer, b4)
      else if disc = 2 then
        match cbor.decode.uint b2 with
        | .error e => .error e
        | .ok (key, b3) =>
          match cbor.decode.uint b3 with
          | .error e => .error e
          | .ok (sig, b4) => .ok (.RedeemWitness key sig, b4)
      else .error (.Custom "unsupported TxInWitness discriminant")

/-- Modelled from the spec: a `Tx` has 3 logical slots and is framed as
a 3-element array: the input sequence, the output sequence, and the
(currently empty) attribute map. -/
def Tx.encode (t : Tx) : List Nat :=
  cbor.encode.array_start 3 ++ encodeList TxIn.encode t.inputs ++
    encodeList TxOut.encode t.outputs ++ cbor.encode.map_start 0

/-- Modelled from the spec: decode a `Tx`, verifying the 3-element array
framing before reading the slots; the attribute map must be empty. -/
def Tx.decode (buf : List Nat) : Except cbor.decode.Error (Tx × List Nat) :=
  match cbor.decode.array_start buf with
  | .error e => .error e
  | .ok (l, b1) =>
    if l ≠ 3 then .error (.Custom "Tx should contains 3 elements") else
    match decodeList TxIn.decode b1 with
    | .error e => .error e
    | .ok (inputs, b2) =>
      match decodeList TxOut.decode b2 with
      | .error e => .error e
      | .ok (outputs, b3) =>
        match cbor.decode.map_start b3 with
        | .error e => .error e
        | .ok (n, b4) =>
          if n ≠ 0 then .error (.Custom "unsupported Tx attributes") else
          .ok ({ inputs := inputs, outputs := outputs }, b4)

/-- Modelled from the spec: a `TxAux` has 2 logical slots and is framed
as a 2-element array: the transaction, then the witness sequence. -/
def TxAux.encode (a : TxAux) : List Nat :=
  cbor.encode.array_start 2 ++ Tx.encode a.tx ++
    encodeList TxInWitness.encode a.witnesses

/-- Modelled from the spec: decode a `TxAux`, verifying the 2-element
array framing before reading the slots. -/
def TxAux.decode (buf : List Nat) : Except cbor.decode.Error (TxAux × List Nat) :=
  match cbor.decode.array_start buf with
  | .error e => .error e
  | .ok (l, b1) =>
    if l ≠ 2 then .error (.Custom "TxAux should contains 2 elements") else
    match Tx.decode b1 with
    | .error e => .error e
    | .ok (tx, b2) =>
      match decodeList TxInWitness.decode b2 with
      | .error e => .error e
      | .ok (ws, b3) => .ok ({ tx := tx, witnesses := ws }, b3)

/-- A coin is valid when its magnitude respects the supply ceiling
(which is itself below the 64-bit range of the wire integer field). -/
def Coin.valid (c : Coin) : Bool :=
  c.value ≤ MAX_COIN

/-- A hash is valid when its digest invariant holds: exactly 32 bytes. -/
def Hash.valid {T : Type} (h : Hash T) : Bool :=
  h.digest.length = 32

/-- A derivation path payload is valid when its byte count fits the
32-bit length range used by the nested byte-string framing. -/
def address.HDAddressPayload.valid (p : address.HDAddressPayload) : Bool :=
  p.payload.length < 2 ^ 32

/-- A stake distribution is valid when its stakeholder bytes fit the
32-bit length range. -/
def address.StakeDistribution.valid : address.StakeDistribution → Bool
  | .BootstrapEraDistr => true
  | .SingleKeyDistr s => s.length < 2 ^ 32

/-- Address attributes are valid when both optional components are. -/
def address.Attributes.valid (a : address.Attributes) : Bool :=
  (match a.derivation_path with
   | none => true
   | some p => p.valid) && a.stake_distribution.valid

/-- An extended address is valid when its hash bytes fit the 32-bit
length range and its attributes are valid. -/
def address.ExtendedAddr.valid (e : address.ExtendedAddr) : Bool :=
  decide (e.addr.length < 2 ^ 32) && e.attributes.valid

/-- An output is valid when its address and its coin are. -/
def TxOut.valid (t : TxOut) : Bool :=
  t.address.valid && t.value.valid

/-- An input is valid when its hash is and its index fits a `u32`. -/
def TxIn.valid (t : TxIn) : Bool :=
  Hash.valid t.id && decide (t.index < 2 ^ 32)

/-- A witness is valid when its byte payloads fit the length range and
its placeholder payloads fit a `u8` (`type TODO = u8`). -/
def TxInWitness.valid : TxInWitness → Bool
  | .PkWitness key sig =>
    decide (key.bytes.length < 2 ^ 64) && decide (sig.bytes.length < 2 ^ 64)
  | .ScriptWitness validator redeemer =>
    decide (validator < 256) && decide (redeemer < 256)
  | .RedeemWitness key sig =>
    decide (key < 256) && decide (sig < 256)

/-- A transaction is valid when both sequences fit the length range and
every element is valid. -/
def Tx.valid (t : Tx) : Bool :=
  decide (t.inputs.length < 2 ^ 64) && t.inputs.all TxIn.valid &&
    decide (t.outputs.length < 2 ^ 64) && t.outputs.all TxOut.valid

/-- A broadcast unit is valid when its transaction is valid, and its
witness sequence fits the length range with every witness valid. -/
def TxAux.valid (a : TxAux) : Bool :=
  a.tx.valid && decide (a.witnesses.length < 2 ^ 64) &&
    a.witnesses.all TxInWitness.valid

namespace cbor

theorem readBE_append (k : Nat) :
    ∀ (j acc n : Nat) (rest : List Nat), n < 256 ^ k →
      decode.readBE acc (k + j) (encode.toBE k n ++ rest) =
        decode.readBE (acc * 256 ^ k + n) j rest := by
  induction k with
  | zero =>
    intro j acc n rest hn
    have hn0 : n = 0 := by omega
    subst hn0
    simp [encode.toBE]
  | succ k ih =>
    intro j acc n rest hn
    have h1 : k + 1 + j = k + (j + 1) := by omega
    rw [h1, encode.toBE, List.append_assoc,
      ih (j + 1) acc (n / 256) ([n % 256] ++ rest) (by
        have h2 : 256 ^ (k + 1) = 256 ^ k * 256 := by ring
        omega)]
    show decode.readBE (acc * 256 ^ k + n / 256) (j + 1) (n % 256 :: rest) = _
    rw [decode.readBE]
    congr 1
    rw [pow_succ, ← Nat.mul_assoc]
    generalize acc * 256 ^ k = B
    omega

theorem readBE_toBE (k acc n : Nat) (hn : n < 256 ^ k) (rest : List Nat) :
    decode.readBE acc k (encode.toBE k n ++ rest) = .ok (acc * 256 ^ k + n, rest) := by
  have h := readBE_append k 0 acc n rest hn
  simpa [decode.readBE] using h

theorem readHeader_encHeader (major n : Nat) (hn : n < 2 ^ 64) (rest : List Nat) :
    decode.readHeader (encode.encHeader major n ++ rest) = .ok (major, n, rest) := by
  unfold encode.encHeader
  by_cases h24 : n < 24
  · have hd : (major * 32 + n) / 32 = major := by omega
    have hm : (major * 32 + n) % 32 = n := by omega
    simp [h24, decode.readHeader, hd, hm]
  · have hd24 : (major * 32 + 24) / 32 = major := by omega
    have hm24 : (major * 32 + 24) % 32 = 24 := by omega
    have hd25 : (major * 32 + 25) / 32 = major := by omega
    have hm25 : (major * 32 + 25) % 32 = 25 := by omega
    have hd26 : (major * 32 + 26) / 32 = major := by omega
    have hm26 : (major * 32 + 26) % 32 = 26 := by omega
    have hd27 : (major * 32 + 27) / 32 = major := by omega
    have hm27 : (major * 32 + 27) % 32 = 27 := by omega
    by_cases h8 : n < 2 ^ 8
    · rw [if_neg h24, if_pos h8, List.cons_append]
      have h := readBE_toBE 1 0 n (by norm_num; omega) rest
      simp [decode.readHeader, hd24, hm24, h]
    · by_cases h16 : n < 2 ^ 16
      · rw [if_neg h24, if_neg h8, if_pos h16, List.cons_append]
        have h := readBE_toBE 2 0 n (by norm_num; omega) rest
        simp [decode.readHeader, hd25, hm25, h]
      · by_cases h32 : n < 2 ^ 32
        · rw [if_neg h24, if_neg h8, if_neg h16, if_pos h32, List.cons_append]
          have h := readBE_toBE 4 0 n (by norm_num; omega) rest
          simp [decode.readHeader, hd26, hm26, h]
        · rw [if_neg h24, if_neg h8, if_neg h16, if_neg h32, List.cons_append]
          have h := readBE_toBE 8 0 n (by norm_num; omega) rest
          simp [decode.readHeader, hd27, hm27, h]

theorem uint_enc (n : Nat) (hn : n < 2 ^ 64) (rest : List Nat) :
    decode.uint (encode.uint n ++ rest) = .ok (n, rest) := by
  simp [decode.uint, encode.uint, readHeader_encHeader 0 n hn rest]

theorem readBytes_append (b rest : List Nat) :
    decode.readBytes b.length (b ++ rest) = .ok (b, rest) := by
  induction b with
  | nil => simp [decode.readBytes]
  | cons x xs ih => simp [decode.readBytes, ih]

theorem bs_enc (b : List Nat) (hb : b.length < 2 ^ 64) (rest : List Nat) :
    decode.bs (encode.bs b ++ rest) = .ok (b, rest) := by
  rw [encode.bs, List.append_assoc]
  simp [decode.bs, readHeader_encHeader 2 b.length hb (b ++ rest), readBytes_append]

theorem array_start_enc (n : Nat) (hn : n < 2 ^ 64) (rest : List Nat) :
    decode.array_start (encode.array_start n ++ rest) = .ok (n, rest) := by
  simp [decode.array_start, encode.array_start, readHeader_encHeader 4 n hn rest]

theorem map_start_enc (n : Nat) (hn : n < 2 ^ 64) (rest : List Nat) :
    decode.map_start (encode.map_start n ++ rest) = .ok (n, rest) := by
  simp [decode.map_start, encode.map_start, readHeader_encHeader 5 n hn rest]

theorem tag_enc (n : Nat) (hn : n < 2 ^ 64) (rest : List Nat) :
    decode.tag (encode.tag n ++ rest) = .ok (n, rest) := by
  simp [decode.tag, encode.tag, readHeader_encHeader 6 n hn rest]

theorem xor_lt_32 {x y : Nat} (hx : x < 2 ^ 32) (hy : y < 2 ^ 32) :
    Nat.xor x y < 2 ^ 32 :=
  Nat.bitwise_lt hx hy

theorem crc32UpdateBit_lt {c : Nat} (hc : c < 2 ^ 32) : crc32UpdateBit c < 2 ^ 32 := by
  unfold crc32UpdateBit
  split
  · exact xor_lt_32 (by omega) (by norm_num)
  · omega

theorem crc32UpdateByte_lt {c : Nat} (b : Nat) (hc : c < 2 ^ 32) :
    crc32UpdateByte c b < 2 ^ 32 := by
  unfold crc32UpdateByte
  have hx : Nat.xor c (b % 256) < 2 ^ 32 := xor_lt_32 hc (by omega)
  have h8 : ∀ k x, x < 2 ^ 32 → crc32UpdateBit^[k] x < 2 ^ 32 := by
    intro k
    induction k with
    | zero => intro x hx; simpa using hx
    | succ k ih =>
      intro x hx
      rw [Function.iterate_succ_apply]
      exact ih _ (crc32UpdateBit_lt hx)
  exact h8 8 _ hx

theorem crc32_foldl_lt (bytes : List Nat) {c : Nat} (hc : c < 2 ^ 32) :
    bytes.foldl crc32UpdateByte c < 2 ^ 32 := by
  induction bytes generalizing c with
  | nil => simpa using hc
  | cons b bs ih => exact ih (crc32UpdateByte_lt b hc)

theorem crc32_lt (bytes : List Nat) : crc32 bytes < 2 ^ 32 := by
  unfold crc32
  exact xor_lt_32 (crc32_foldl_lt bytes (by norm_num)) (by norm_num)

theorem toBE_length (k n : Nat) : (encode.toBE k n).length = k := by
  induction k generalizing n with
  | zero => simp [encode.toBE]
  | succ k ih => simp [encode.toBE, ih]

theorem encHeader_length_le (m n : Nat) : (encode.encHeader m n).length ≤ 9 := by
  unfold encode.encHeader
  split
  · simp
  · split
    · simp [toBE_length]
    · split
      · simp [toBE_length]
      · split <;> simp [toBE_length]

theorem bs_length_le (b : List Nat) : (encode.bs b).length ≤ 9 + b.length := by
  have h := encHeader_length_le 2 b.length
  simp only [encode.bs, List.length_append]
  omega

theorem uint_length_le (n : Nat) : (encode.uint n).length ≤ 9 :=
  encHeader_length_le 0 n

theorem map_start_length_le (n : Nat) : (encode.map_start n).length ≤ 9 :=
  encHeader_length_le 5 n

theorem array_start_length_le (n : Nat) : (encode.array_start n).length ≤ 9 :=
  encHeader_length_le 4 n

end cbor

theorem Hash.decode_encode_hash {T : Type} (h : Hash T) (hv : Hash.valid h = true)
    (rest : List Nat) : Hash.decode (T := T) (Hash.encode h ++ rest) = .ok (h, rest) := by
  have hlen : h.digest.length = 32 := by simpa [Hash.valid] using hv
  unfold Hash.decode Hash.encode
  rw [cbor.bs_enc h.digest (by omega) rest]
  simp [Hash.from_slice, Hash.from_bytes, hlen]

theorem Coin.decode_encode_coin (c : Coin) (hv : Coin.valid c = true)
    (rest : List Nat) : Coin.decode (Coin.encode c ++ rest) = .ok (c, rest) := by
  have hb : c.value ≤ MAX_COIN := by simpa [Coin.valid] using hv
  have h64 : c.value < 2 ^ 64 := lt_of_le_of_lt hb (by norm_num [MAX_COIN])
  unfold Coin.decode Coin.encode
  rw [cbor.uint_enc c.value h64 rest]
  simp [Coin.new, hb]

theorem Attributes.decode_encode_attributes (a : address.Attributes) (hv : a.valid = true)
    (rest : List Nat) :
    address.Attributes.decode (address.Attributes.encode a ++ rest) = .ok (a, rest) := by
  obtain ⟨dp, sd⟩ := a
  cases dp with
  | none =>
    cases sd with
    | BootstrapEraDistr =>
      have h0 := cbor.map_start_enc 0 (by norm_num) rest
      simp [address.Attributes.encode, address.Attributes.decode, h0,
        address.Attributes.decodeLoop]
    | SingleKeyDistr s =>
      have hs : s.length < 2 ^ 32 := by
        simpa [address.Attributes.valid, address.StakeDistribution.valid] using hv
      have h0 := cbor.map_start_enc 1 (by norm_num)
        (cbor.encode.uint 0 ++ (cbor.encode.bs s ++ rest))
      have h1 := cbor.uint_enc 0 (by norm_num) (cbor.encode.bs s ++ rest)
      have h2 := cbor.bs_enc s (by omega) rest
      simp [address.Attributes.encode, address.Attributes.decode, h0, h1, h2,
        address.Attributes.decodeLoop]
  | some p =>
    have hp : p.payload.length < 2 ^ 32 := by
      have h := hv
      simp [address.Attributes.valid, address.HDAddressPayload.valid] at h
      exact h.1
    have hinner : (cbor.encode.bs p.payload).length < 2 ^ 64 := by
      have h := cbor.bs_length_le p.payload
      omega
    have hin : cbor.decode.bs (cbor.encode.bs p.payload) = .ok (p.payload, []) := by
      have h := cbor.bs_enc p.payload (by omega) []
      simpa using h
    cases sd with
    | BootstrapEraDistr =>
      have h0 := cbor.map_start_enc 1 (by norm_num)
        (cbor.encode.uint 1 ++ (cbor.encode.bs (cbor.encode.bs p.payload) ++ rest))
      have h1 := cbor.uint_enc 1 (by norm_num)
        (cbor.encode.bs (cbor.encode.bs p.payload) ++ rest)
      have h2 := cbor.bs_enc (cbor.encode.bs p.payload) hinner rest
      simp [address.Attributes.encode, address.Attributes.decode, h0, h1, h2, hin,
        address.Attributes.decodeLoop, address.HDAddressPayload.from_vec]
    | SingleKeyDistr s =>
      have hs : s.length < 2 ^ 32 := by
        have h := hv
        simp [address.Attributes.valid, address.StakeDistribution.valid] at h
        exact h.2
      have h0 := cbor.map_start_enc 2 (by norm_num)
        (cbor.encode.uint 0 ++ (cbor.encode.bs s ++
          (cbor.encode.uint 1 ++ (cbor.encode.bs (cbor.encode.bs p.payload) ++ rest))))
      have h1 := cbor.uint_enc 0 (by norm_num)
        (cbor.encode.bs s ++
          (cbor.encode.uint 1 ++ (cbor.encode.bs (cbor.encode.bs p.payload) ++ rest)))
      have h2 := cbor.bs_enc s (by omega)
        (cbor.encode.uint 1 ++ (cbor.encode.bs (cbor.encode.bs p.payload) ++ rest))
      have h3 := cbor.uint_enc 1 (by norm_num)
        (cbor.encode.bs (cbor.encode.bs p.payload) ++ rest)
      have h4 := cbor.bs_enc (cbor.encode.bs p.payload) hinner rest
      simp [address.Attributes.encode, address.Attributes.decode, h0, h1, h2, h3, h4,
        hin, address.Attributes.decodeLoop, address.HDAddressPayload.from_vec]

theorem Attributes.encode_length_le (a : address.Attributes) (hv : a.valid = true) :
    (address.Attributes.encode a).length ≤ 2 ^ 34 := by
  obtain ⟨dp, sd⟩ := a
  have hm : ∀ n, (cbor.encode.map_start n).length ≤ 9 := cbor.map_start_length_le
  have hu : ∀ n, (cbor.encode.uint n).length ≤ 9 := cbor.uint_length_le
  have hb : ∀ b : List Nat, (cbor.encode.bs b).length ≤ 9 + b.length := cbor.bs_length_le
  cases dp with
  | none =>
    cases sd with
    | BootstrapEraDistr =>
      have h := hm 0
      simp [address.Attributes.encode]
      omega
    | SingleKeyDistr s =>
      have hs : s.length < 2 ^ 32 := by
        simpa [address.Attributes.valid, address.StakeDistribution.valid] using hv
      have h1 := hm 1
      have h2 := hu 0
      have h3 := hb s
      simp [address.Attributes.encode]
      omega
  | some p =>
    have hp : p.payload.length < 2 ^ 32 := by
      have h := hv
      simp [address.Attributes.valid, address.HDAddressPayload.valid] at h
      exact h.1
    have hbi := hb (cbor.encode.bs p.payload)
    have hbp := hb p.payload
    cases sd with
    | BootstrapEraDistr =>
      have h1 := hm 1
      have h2 := hu 1
      simp [address.Attributes.encode]
      omega
    | SingleKeyDistr s =>
      have hs : s.length < 2 ^ 32 := by
        have h := hv
        simp [address.Attributes.valid, address.StakeDistribution.valid] at h
        exact h.2
      have h1 := hm 2
      have h2 := hu 0
      have h3 := hb s
      have h4 := hu 1
      simp [address.Attributes.encode]
      omega

theorem ExtendedAddr.encode_length_lt (e : address.ExtendedAddr) (hv : e.valid = true) :
    (address.ExtendedAddr.encode e).length < 2 ^ 64 := by
  have hva : e.attributes.valid = true := by
    have h := hv
    simp [address.ExtendedAddr.valid] at h
    exact h.2
  have haddr : e.addr.length < 2 ^ 32 := by
    have h := hv
    simp [address.ExtendedAddr.valid] at h
    exact h.1
  have h1 := cbor.array_start_length_le 3
  have h2 := cbor.bs_length_le e.addr
  have h3 := Attributes.encode_length_le e.attributes hva
  have h4 := cbor.uint_length_le e.addr_type.toNat
  simp only [address.ExtendedAddr.encode, List.length_append]
  omega

theorem AddrType.fromNat_toNat (t : address.AddrType) :
    address.AddrType.fromNat t.toNat = .ok t := by
  cases t <;> simp [address.AddrType.fromNat, address.AddrType.toNat]

theorem AddrType.toNat_lt (t : address.AddrType) : t.toNat < 2 ^ 64 := by
  cases t <;> simp [address.AddrType.toNat]

theorem ExtendedAddr.decode_encode_extaddr (e : address.ExtendedAddr) (hv : e.valid = true)
    (rest : List Nat) :
    address.ExtendedAddr.decode (address.ExtendedAddr.encode e ++ rest) = .ok (e, rest) := by
  have hva : e.attributes.valid = true := by
    have h := hv
    simp [address.ExtendedAddr.valid] at h
    exact h.2
  have haddr : e.addr.length < 2 ^ 32 := by
    have h := hv
    simp [address.ExtendedAddr.valid] at h
    exact h.1
  have h0 := cbor.array_start_enc 3 (by norm_num)
    (cbor.encode.bs e.addr ++ (address.Attributes.encode e.attributes ++
      (cbor.encode.uint e.addr_type.toNat ++ rest)))
  have h1 := cbor.bs_enc e.addr (by omega)
    (address.Attributes.encode e.attributes ++ (cbor.encode.uint e.addr_type.toNat ++ rest))
  have h2 := Attributes.decode_encode_attributes e.attributes hva
    (cbor.encode.uint e.addr_type.toNat ++ rest)
  have h3 := cbor.uint_enc e.addr_type.toNat (AddrType.toNat_lt e.addr_type) rest
  have h4 := AddrType.fromNat_toNat e.addr_type
  simp [address.ExtendedAddr.encode, address.ExtendedAddr.decode, h0, h1, h2, h3, h4]

theorem decode_encode_with_crc32 {α : Type}
    (enc : α → List Nat) (dec : List Nat → Except cbor.decode.Error (α × List Nat))
    (x : α) (hdec : dec (enc x) = .ok (x, []))
    (hlen : (enc x).length < 2 ^ 64) (rest : List Nat) :
    cbor.hs.util.decode_with_crc32 dec (cbor.hs.util.encode_with_crc32 enc x ++ rest) =
      .ok (x, rest) := by
  have h0 := cbor.array_start_enc 2 (by norm_num)
    (cbor.encode.tag 24 ++ (cbor.encode.bs (enc x) ++
      (cbor.encode.uint (cbor.crc32 (enc x)) ++ rest)))
  have h1 := cbor.tag_enc 24 (by norm_num)
    (cbor.encode.bs (enc x) ++ (cbor.encode.uint (cbor.crc32 (enc x)) ++ rest))
  have h2 := cbor.bs_enc (enc x) hlen
    (cbor.encode.uint (cbor.crc32 (enc x)) ++ rest)
  have h3 := cbor.uint_enc (cbor.crc32 (enc x))
    (lt_trans (cbor.crc32_lt (enc x)) (by norm_num)) rest
  simp [cbor.hs.util.encode_with_crc32, cbor.hs.util.decode_with_crc32,
    h0, h1, h2, h3, hdec]

theorem TxOut.decode_encode_txout (t : TxOut) (hv : t.valid = true) (rest : List Nat) :
    TxOut.decode (TxOut.encode t ++ rest) = .ok (t, rest) := by
  have hva : t.address.valid = true := by
    have h := hv
    simp [TxOut.valid] at h
    exact h.1
  have hvc : t.value.valid = true := by
    have h := hv
    simp [TxOut.valid] at h
    exact h.2
  have haddr : address.ExtendedAddr.decode (address.ExtendedAddr.encode t.address) =
      .ok (t.address, []) := by
    have h := ExtendedAddr.decode_encode_extaddr t.address hva []
    simpa using h
  have h0 := cbor.array_start_enc 2 (by norm_num)
    (cbor.hs.util.encode_with_crc32 address.ExtendedAddr.encode t.address ++
      (Coin.encode t.value ++ rest))
  have h1 := decode_encode_with_crc32 address.ExtendedAddr.encode
    address.ExtendedAddr.decode t.address haddr
    (ExtendedAddr.encode_length_lt t.address hva) (Coin.encode t.value ++ rest)
  have h2 := Coin.decode_encode_coin t.value hvc rest
  simp [TxOut.encode, TxOut.decode, TxOut.new, h0, h1, h2]

theorem TxIn.decode_encode_txin (t : TxIn) (hv : t.valid = true) (rest : List Nat) :
    TxIn.decode (TxIn.encode t ++ rest) = .ok (t, rest) := by
  have hvh : Hash.valid t.id = true := by
    have h := hv
    simp [TxIn.valid] at h
    exact h.1
  have hidx : t.index < 2 ^ 32 := by
    have h := hv
    simp [TxIn.valid] at h
    exact h.2
  have h0 := cbor.array_start_enc 2 (by norm_num)
    (Hash.encode t.id ++ (cbor.encode.uint t.index ++ rest))
  have h1 := Hash.decode_encode_hash t.id hvh (cbor.encode.uint t.index ++ rest)
  have h2 := cbor.uint_enc t.index (by omega) rest
  simp [TxIn.encode, TxIn.decode, TxIn.new, h0, h1, h2]

theorem TxInWitness.decode_encode_witness (w : TxInWitness) (hv : w.valid = true)
    (rest : List Nat) :
    TxInWitness.decode (TxInWitness.encode w ++ rest) = .ok (w, rest) := by
  cases w with
  | PkWitness key sig =>
    have hk : key.bytes.length < 2 ^ 64 := by
      have h := hv
      simp [TxInWitness.valid] at h
      exact h.1
    have hsg : sig.bytes.length < 2 ^ 64 := by
      have h := hv
      simp [TxInWitness.valid] at h
      exact h.2
    have h0 := cbor.array_start_enc 3 (by norm_num)
      (cbor.encode.uint 0 ++ (cbor.encode.bs key.bytes ++ (cbor.encode.bs sig.bytes ++ rest)))
    have h1 := cbor.uint_enc 0 (by norm_num)
      (cbor.encode.bs key.bytes ++ (cbor.encode.bs sig.bytes ++ rest))
    have h2 := cbor.bs_enc key.bytes hk (cbor.encode.bs sig.bytes ++ rest)
    have h3 := cbor.bs_enc sig.bytes hsg rest
    simp [TxInWitness.encode, TxInWitness.decode, h0, h1, h2, h3]
  | ScriptWitness validator redeemer =>
    have hV : validator < 256 := by
      have h := hv
      simp [TxInWitness.valid] at h
      exact h.1
    have hr : redeemer < 256 := by
      have h := hv
      simp [TxInWitness.valid] at h
      exact h.2
    have h0 := cbor.array_start_enc 3 (by norm_num)
      (cbor.encode.uint 1 ++ (cbor.encode.uint validator ++ (cbor.encode.uint redeemer ++ rest)))
    have h1 := cbor.uint_enc 1 (by norm_num)
      (cbor.encode.uint validator ++ (cbor.encode.uint redeemer ++ rest))
    have h2 := cbor.uint_enc validator (lt_trans hV (by norm_num)) (cbor.encode.uint redeemer ++ rest)
    have h3 := cbor.uint_enc redeemer (lt_trans hr (by norm_num)) rest
    simp [TxInWitness.encode, TxInWitness.decode, h0, h1, h2, h3]
  | RedeemWitness key sig =>
    have hk : key < 256 := by
      have h := hv
      simp [TxInWitness.valid] at h
      exact h.1
    have hsg : sig < 256 := by
      have h := hv
      simp [TxInWitness.valid] at h
      exact h.2
    have h0 := cbor.array_start_enc 3 (by norm_num)
      (cbor.encode.uint 2 ++ (cbor.encode.uint key ++ (cbor.encode.uint sig ++ rest)))
    have h1 := cbor.uint_enc 2 (by norm_num)
      (cbor.encode.uint key ++ (cbor.encode.uint sig ++ rest))
    have h2 := cbor.uint_enc key (lt_trans hk (by norm_num)) (cbor.encode.uint sig ++ rest)
    have h3 := cbor.uint_enc sig (lt_trans hsg (by norm_num)) rest
    simp [TxInWitness.encode, TxInWitness.decode, h0, h1, h2, h3]

theorem decodeListLoop_encode {α : Type}
    (enc : α → List Nat) (dec : List Nat → Except cbor.decode.Error (α × List Nat))
    (xs : List α)
    (hx : ∀ x ∈ xs, ∀ r : List Nat, dec (enc x ++ r) = .ok (x, r)) (rest : List Nat) :
    decodeListLoop dec xs.length (xs.foldr (fun x acc => enc x ++ acc) [] ++ rest) =
      .ok (xs, rest) := by
  induction xs with
  | nil => simp [decodeListLoop]
  | cons x xs ih =>
    have hx1 := hx x (by simp) (xs.foldr (fun x acc => enc x ++ acc) [] ++ rest)
    have ih1 := ih (fun y hy r => hx y (by simp [hy]) r)
    simp [decodeListLoop, List.append_assoc, hx1, ih1]

theorem decodeList_encodeList {α : Type}
    (enc : α → List Nat) (dec : List Nat → Except cbor.decode.Error (α × List Nat))
    (xs : List α) (hlen : xs.length < 2 ^ 64)
    (hx : ∀ x ∈ xs, ∀ r : List Nat, dec (enc x ++ r) = .ok (x, r)) (rest : List Nat) :
    decodeList dec (encodeList enc xs ++ rest) = .ok (xs, rest) := by
  have h0 := cbor.array_start_enc xs.length hlen
    (xs.foldr (fun x acc => enc x ++ acc) [] ++ rest)
  have h1 := decodeListLoop_encode enc dec xs hx rest
  simp [encodeList, decodeList, h0, h1]

theorem Tx.decode_encode_tx (t : Tx) (hv : t.valid = true) (rest : List Nat) :
    Tx.decode (Tx.encode t ++ rest) = .ok (t, rest) := by
  have h := hv
  simp only [Tx.valid, Bool.and_eq_true, decide_eq_true_eq, List.all_eq_true] at h
  obtain ⟨⟨⟨hil, hia⟩, hol⟩, hoa⟩ := h
  have hins : ∀ x ∈ t.inputs, ∀ r : List Nat, TxIn.decode (TxIn.encode x ++ r) = .ok (x, r) :=
    fun x hxin r => TxIn.decode_encode_txin x (hia x hxin) r
  have houts : ∀ x ∈ t.outputs, ∀ r : List Nat, TxOut.decode (TxOut.encode x ++ r) = .ok (x, r) :=
    fun x hxin r => TxOut.decode_encode_txout x (hoa x hxin) r
  have h0 := cbor.array_start_enc 3 (by norm_num)
    (encodeList TxIn.encode t.inputs ++ (encodeList TxOut.encode t.outputs ++
      (cbor.encode.map_start 0 ++ rest)))
  have h1 := decodeList_encodeList TxIn.encode TxIn.decode t.inputs hil hins
    (encodeList TxOut.encode t.outputs ++ (cbor.encode.map_start 0 ++ rest))
  have h2 := decodeList_encodeList TxOut.encode TxOut.decode t.outputs hol houts
    (cbor.encode.map_start 0 ++ rest)
  have h3 := cbor.map_start_enc 0 (by norm_num) rest
  simp [Tx.encode, Tx.decode, h0, h1, h2, h3]

theorem TxAux.decode_encode_txaux (a : TxAux) (hv : a.valid = true) (rest : List Nat) :
    TxAux.decode (TxAux.encode a ++ rest) = .ok (a, rest) := by
  have h := hv
  simp only [TxAux.valid, Bool.and_eq_true, decide_eq_true_eq, List.all_eq_true] at h
  obtain ⟨⟨htx, hwl⟩, hwa⟩ := h
  have hws : ∀ x ∈ a.witnesses, ∀ r : List Nat,
      TxInWitness.decode (TxInWitness.encode x ++ r) = .ok (x, r) :=
    fun x hxin r => TxInWitness.decode_encode_witness x (hwa x hxin) r
  have h0 := cbor.array_start_enc 2 (by norm_num)
    (Tx.encode a.tx ++ (encodeList TxInWitness.encode a.witnesses ++ rest))
  have h1 := Tx.decode_encode_tx a.tx htx (encodeList TxInWitness.encode a.witnesses ++ rest)
  have h2 := decodeList_encodeList TxInWitness.encode TxInWitness.decode a.witnesses hwl hws rest
  simp [TxAux.encode, TxAux.decode, h0, h1, h2]

/-- The extended address carried by the conformance test vector: a
public-key-type address with the bootstrap-era stake distribution and
the derivation path payload `[1,2,3,4,5]`. -/
def sampleAddr : address.ExtendedAddr :=
  { addr := [0x83, 0xee, 0xa1, 0xb5, 0xec, 0x8e, 0x80, 0x26, 0x65, 0x81, 0x46, 0x4a,
             0xee, 0x0e, 0x2d, 0x6a, 0x45, 0xfd, 0x6d, 0x7b, 0x9e, 0x1a, 0x98, 0x3a,
             0x50, 0x48, 0xcd, 0x15],
    attributes := { derivation_path := some { payload := [1, 2, 3, 4, 5] },
                    stake_distribution := .BootstrapEraDistr },
    addr_type := .ATPubKey }

/-- The output value carried by the conformance test vector. -/
def sampleTxOut : TxOut :=
  { address := sampleAddr, value := { value := 42 } }

/-- A concrete input referencing the all-zero transaction identifier. -/
def sampleTxIn : TxIn :=
  { id := { digest := List.replicate 32 0 }, index := 0 }

/-- A concrete one-input one-output transaction. -/
def sampleTx : Tx :=
  { inputs := [sampleTxIn], outputs := [sampleTxOut] }

/-- A concrete broadcast unit pairing `sampleTx` with one witness. -/
def sampleTxAux : TxAux :=
  { tx := sampleTx,
    witnesses := [.PkWitness { bytes := List.replicate 64 1 } { bytes := List.replicate 64 2 }] }

/-- C1 counterexample: the conformance test-vector constant `TX_OUT` is
not a 45-byte sequence; it holds 54 bytes. -/
theorem claim_C1_counterexample : TX_OUT.length ≠ 45 ∧ TX_OUT.length = 54 := by
  constructor <;> decide

/-- C1 (amended): decoding the literal conformance test-vector byte
sequence (the 54-byte constant `TX_OUT`) with `TxOut.decode` succeeds,
consumes the whole buffer, and yields a `TxOut` whose value equals
`Coin.new 42`, whose address type is the public-key type, whose stake
distribution is the bootstrap-era default, and whose derivation path is
the 5-byte payload `[1,2,3,4,5]`. -/
theorem claim_C1 :
    ∃ txo : TxOut, TxOut.decode TX_OUT = .ok (txo, []) ∧
      Coin.new 42 = some txo.value ∧
      txo.address.addr_type = address.AddrType.ATPubKey ∧
      txo.address.attributes.stake_distribution =
        address.StakeDistribution.new_bootstrap_era ∧
      txo.address.attributes.derivation_path =
        some (address.HDAddressPayload.from_vec [1, 2, 3, 4, 5]) := by
  refine ⟨sampleTxOut, ?_, ?_, ?_, ?_, ?_⟩ <;> decide

/-- C3: for every natural number v (in particular every u64), `Coin.new v`
returns a value if and only if v is at most `MAX_COIN`; in particular
`Coin.new 45000000000000000` succeeds and `Coin.new 45000000000000001`
returns no value. -/
theorem claim_C3 :
    (∀ v : Nat, (Coin.new v).isSome ↔ v ≤ MAX_COIN) ∧
    Coin.new 45000000000000000 = some { value := 45000000000000000 } ∧
    Coin.new 45000000000000001 = none := by
  refine ⟨fun v => ?_, by decide, by decide⟩
  by_cases h : v ≤ MAX_COIN <;> simp [Coin.new, h]

/-- C3 witness: the bound characterization applied at a concrete value. -/
theorem claim_C3_witness :
    ((Coin.new 42).isSome ↔ 42 ≤ MAX_COIN) ∧ Coin.new 45000000000000001 = none :=
  ⟨claim_C3.1 42, claim_C3.2.2⟩

/-- C4: `Coin.decode` reads an unsigned integer and applies the same
bound check as `Coin.new`: whenever the integer read from the buffer
exceeds `MAX_COIN` the decode fails with the out-of-bounds error, and
whenever it is within the bound the decode succeeds with exactly that
value (never clamped or truncated). -/
theorem claim_C4 :
    (∀ (buf : List Nat) (v : Nat) (rest : List Nat),
      cbor.decode.uint buf = .ok (v, rest) → MAX_COIN < v →
      Coin.decode buf = .error (.Custom "Coin out of bound")) ∧
    (∀ (buf : List Nat) (v : Nat) (rest : List Nat),
      cbor.decode.uint buf = .ok (v, rest) → v ≤ MAX_COIN →
      Coin.decode buf = .ok ({ value := v }, rest)) := by
  constructor
  · intro buf v rest h1 h2
    have h3 : ¬ (v ≤ MAX_COIN) := by omega
    simp [Coin.decode, h1, Coin.new, h3]
  · intro buf v rest h1 h2
    simp [Coin.decode, h1, Coin.new, h2]

/-- C4 witness: the bound check applied to the encodings of the value
just above the ceiling and of 42. -/
theorem claim_C4_witness :
    Coin.decode (cbor.encode.uint 45000000000000001) = .error (.Custom "Coin out of bound") ∧
    Coin.decode (cbor.encode.uint 42) = .ok ({ value := 42 }, []) :=
  ⟨claim_C4.1 (cbor.encode.uint 45000000000000001) 45000000000000001 [] (by decide) (by decide),
   claim_C4.2 (cbor.encode.uint 42) 42 [] (by decide) (by decide)⟩

/-- C10: on every byte list of length exactly 32, `Hash.from_slice`
agrees with `Hash.from_bytes`: it returns exactly the wrap of those
bytes. -/
theorem claim_C10 :
    ∀ (T : Type) (b : List Nat), b.length = 32 →
      Hash.from_slice (T := T) b = some (Hash.from_bytes b) := by
  intro T b hb
  simp [Hash.from_slice, hb]

/-- C10 witness: the two constructors agree on a concrete 32-byte array. -/
theorem claim_C10_witness :
    Hash.from_slice (T := TxMark) (List.replicate 32 7) =
      some (Hash.from_bytes (List.replicate 32 7)) :=
  claim_C10 TxMark (List.replicate 32 7) (by decide)

/-- C5: `Hash.from_slice` succeeds exactly on inputs of length 32
(failing on lengths 31 and 33 in particular), and `Hash.decode` fails
with the invalid-length error whenever the decoded byte string is not
exactly 32 bytes long. -/
theorem claim_C5 :
    (∀ (T : Type) (bytes : List Nat),
      (Hash.from_slice (T := T) bytes).isSome ↔ bytes.length = 32) ∧
    Hash.from_slice (T := TxMark) (List.replicate 31 0) = none ∧
    Hash.from_slice (T := TxMark) (List.replicate 33 0) = none ∧
    (∀ (T : Type) (buf bytes rest : List Nat),
      cbor.decode.bs buf = .ok (bytes, rest) → bytes.length ≠ 32 →
      Hash.decode (T := T) buf = .error (.Custom "invalid length for Hash")) := by
  refine ⟨fun T bytes => ?_, by decide, by decide, fun T buf bytes rest h1 h2 => ?_⟩
  · by_cases h : bytes.length = 32 <;> simp [Hash.from_slice, h]
  · simp [Hash.decode, h1, Hash.from_slice, h2]

/-- C5 witness: the length characterization at concrete lengths, and the
decode failure on the encoding of a 31-byte string. -/
theorem claim_C5_witness :
    ((Hash.from_slice (T := TxMark) (List.replicate 31 0)).isSome ↔
      (List.replicate (α := Nat) 31 0).length = 32) ∧
    Hash.decode (T := TxMark) (cbor.encode.bs (List.replicate 31 0)) =
      .error (.Custom "invalid length for Hash") :=
  ⟨claim_C5.1 TxMark (List.replicate 31 0),
   claim_C5.2.2.2 TxMark (cbor.encode.bs (List.replicate 31 0)) (List.replicate 31 0) []
     (by decide) (by decide)⟩

/-- C2: for every valid value of type `Coin`, `Hash` (TypedHash),
`TxOut`, `Tx` and `TxAux`, decoding the encoding succeeds and returns
the value unchanged, consuming the whole buffer. -/
theorem claim_C2 :
    (∀ c : Coin, Coin.valid c = true → Coin.decode (Coin.encode c) = .ok (c, [])) ∧
    (∀ (T : Type) (h : Hash T), Hash.valid h = true →
      Hash.decode (Hash.encode h) = .ok (h, [])) ∧
    (∀ t : TxOut, TxOut.valid t = true → TxOut.decode (TxOut.encode t) = .ok (t, [])) ∧
    (∀ t : Tx, Tx.valid t = true → Tx.decode (Tx.encode t) = .ok (t, [])) ∧
    (∀ a : TxAux, TxAux.valid a = true → TxAux.decode (TxAux.encode a) = .ok (a, [])) := by
  refine ⟨fun c hc => ?_, fun T h hh => ?_, fun t ht => ?_, fun t ht => ?_, fun a ha => ?_⟩
  · have h := Coin.decode_encode_coin c hc []
    simpa using h
  · have h1 := Hash.decode_encode_hash h hh []
    simpa using h1
  · have h := TxOut.decode_encode_txout t ht []
    simpa using h
  · have h := Tx.decode_encode_tx t ht []
    simpa using h
  · have h := TxAux.decode_encode_txaux a ha []
    simpa using h

/-- C2 witness: the round trip applied to a concrete coin, hash, output,
transaction and broadcast unit. -/
theorem claim_C2_witness :
    Coin.decode (Coin.encode { value := 42 }) = .ok ({ value := 42 }, []) ∧
    Hash.decode (T := TxMark) (Hash.encode ({ digest := List.replicate 32 0 } : Hash TxMark)) =
      .ok (({ digest := List.replicate 32 0 } : Hash TxMark), []) ∧
    TxOut.decode (TxOut.encode sampleTxOut) = .ok (sampleTxOut, []) ∧
    Tx.decode (Tx.encode sampleTx) = .ok (sampleTx, []) ∧
    TxAux.decode (TxAux.encode sampleTxAux) = .ok (sampleTxAux, []) :=
  ⟨claim_C2.1 { value := 42 } (by decide),
   claim_C2.2.1 TxMark { digest := List.replicate 32 0 } (by decide),
   claim_C2.2.2.1 sampleTxOut (by decide),
   claim_C2.2.2.2.1 sampleTx (by decide),
   claim_C2.2.2.2.2 sampleTxAux (by decide)⟩

/-- C8: `TxIn`, the three `TxInWitness` variants, `Tx` and `TxAux` are
encoded as arrays framing their logical fields in declared order (`TxIn`:
2 fields; each witness variant: a leading discriminant plus its 2 payload
fields; `Tx`: 3 slots; `TxAux`: 2 slots), and each decoder verifies the
declared array length before reading any field, failing with the
malformed-structure error on mismatch. -/
theorem claim_C8 :
    (∀ t : TxIn, TxIn.encode t =
      cbor.encode.array_start 2 ++ Hash.encode t.id ++ cbor.encode.uint t.index) ∧
    (∀ (key : XPub) (sig : Signature TxMark),
      TxInWitness.encode (.PkWitness key sig) =
        cbor.encode.array_start 3 ++ cbor.encode.uint 0 ++
          cbor.encode.bs key.bytes ++ cbor.encode.bs sig.bytes) ∧
    (∀ validator redeemer : TODO,
      TxInWitness.encode (.ScriptWitness validator redeemer) =
        cbor.encode.array_start 3 ++ cbor.encode.uint 1 ++
          cbor.encode.uint validator ++ cbor.encode.uint redeemer) ∧
    (∀ key sig : TODO,
      TxInWitness.encode (.RedeemWitness key sig) =
        cbor.encode.array_start 3 ++ cbor.encode.uint 2 ++
          cbor.encode.uint key ++ cbor.encode.uint sig) ∧
    (∀ t : Tx, Tx.encode t =
      cbor.encode.array_start 3 ++ encodeList TxIn.encode t.inputs ++
        encodeList TxOut.encode t.outputs ++ cbor.encode.map_start 0) ∧
    (∀ a : TxAux, TxAux.encode a =
      cbor.encode.array_start 2 ++ Tx.encode a.tx ++
        encodeList TxInWitness.encode a.witnesses) ∧
    (∀ (buf : List Nat) (l : Nat) (rest : List Nat),
      cbor.decode.array_start buf = .ok (l, rest) → l ≠ 2 →
      TxIn.decode buf = .error (.Custom "TxIn should contains 2 elements")) ∧
    (∀ (buf : List Nat) (l : Nat) (rest : List Nat),
      cbor.decode.array_start buf = .ok (l, rest) → l ≠ 3 →
      TxInWitness.decode buf = .error (.Custom "TxInWitness should contains 3 elements")) ∧
    (∀ (buf : List Nat) (l : Nat) (rest : List Nat),
      cbor.decode.array_start buf = .ok (l, rest) → l ≠ 3 →
      Tx.decode buf = .error (.Custom "Tx should contains 3 elements")) ∧
    (∀ (buf : List Nat) (l : Nat) (rest : List Nat),
      cbor.decode.array_start buf = .ok (l, rest) → l ≠ 2 →
      TxAux.decode buf = .error (.Custom "TxAux should contains 2 elements")) := by
  refine ⟨fun t => rfl, fun key sig => rfl, fun validator redeemer => rfl,
    fun key sig => rfl, fun t => rfl, fun a => rfl,
    fun buf l rest h1 h2 => ?_, fun buf l rest h1 h2 => ?_,
    fun buf l rest h1 h2 => ?_, fun buf l rest h1 h2 => ?_⟩
  · simp [TxIn.decode, h1, h2]
  · simp [TxInWitness.decode, h1, h2]
  · simp [Tx.decode, h1, h2]
  · simp [TxAux.decode, h1, h2]

/-- C8 witness: the framing equations on concrete values and the length
check applied to a buffer announcing zero elements. -/
theorem claim_C8_witness :
    TxIn.encode sampleTxIn =
      cbor.encode.array_start 2 ++ Hash.encode sampleTxIn.id ++
        cbor.encode.uint sampleTxIn.index ∧
    TxIn.decode [0x80] = .error (.Custom "TxIn should contains 2 elements") ∧
    TxInWitness.decode [0x80] = .error (.Custom "TxInWitness should contains 3 elements") ∧
    Tx.decode [0x80] = .error (.Custom "Tx should contains 3 elements") ∧
    TxAux.decode [0x80] = .error (.Custom "TxAux should contains 2 elements") :=
  ⟨claim_C8.1 sampleTxIn,
   claim_C8.2.2.2.2.2.2.1 [0x80] 0 [] (by decide) (by decide),
   claim_C8.2.2.2.2.2.2.2.1 [0x80] 0 [] (by decide) (by decide),
   claim_C8.2.2.2.2.2.2.2.2.1 [0x80] 0 [] (by decide) (by decide),
   claim_C8.2.2.2.2.2.2.2.2.2 [0x80] 0 [] (by decide) (by decide)⟩

/-- C9 counterexample: a `TxAux` whose witness count differs from its
transaction input count is produced by plain construction; nothing
rejects it. -/
theorem claim_C9_counterexample :
    (TxAux.mk (Tx.mk [sampleTxIn] []) []).witnesses.length ≠
      (TxAux.mk (Tx.mk [sampleTxIn] []) []).tx.inputs.length := by
  decide

/-- C9 (amended): the code does not enforce witness/input alignment:
construction stores any witness list unchanged regardless of the input
count, and decoding accepts the encoding of a misaligned `TxAux`. -/
theorem claim_C9 :
    (∀ (tx : Tx) (ws : List TxInWitness),
      (TxAux.mk tx ws).tx = tx ∧ (TxAux.mk tx ws).witnesses = ws) ∧
    TxAux.decode (TxAux.encode (TxAux.mk (Tx.mk [sampleTxIn] []) [])) =
      .ok (TxAux.mk (Tx.mk [sampleTxIn] []) [], []) ∧
    (TxAux.mk (Tx.mk [sampleTxIn] []) []).witnesses.length ≠
      (TxAux.mk (Tx.mk [sampleTxIn] []) []).tx.inputs.length := by
  exact ⟨fun tx ws => ⟨rfl, rfl⟩, by decide, by decide⟩

/-- The sixteen lowercase hexadecimal digit characters. -/
def hexAlphabet : List Char :=
  "0123456789abcdef".toList

theorem hexDigit_mem {n : Nat} (h : n < 16) : hexDigit n ∈ hexAlphabet := by
  have hall : ∀ m, m < 16 → hexDigit m ∈ hexAlphabet := by decide
  exact hall n h

theorem display_foldl (l : List Nat) (init : List Char) :
    l.foldl
      (fun acc byte =>
        acc ++ (if byte < 0x10 then '0' :: natHexDigits byte else natHexDigits byte))
      init =
    init ++ l.flatMap
      (fun b => if b < 0x10 then '0' :: natHexDigits b else natHexDigits b) := by
  induction l generalizing init with
  | nil => simp
  | cons b l ih => simp [ih, List.append_assoc]

theorem chunk_eq (b : Nat) :
    (if b < 0x10 then '0' :: natHexDigits b else natHexDigits b) =
      [hexDigit (b / 16), hexDigit (b % 16)] := by
  by_cases h : b < 16
  · have h1 : b / 16 = 0 := by omega
    have h2 : b % 16 = b := by omega
    have h3 : hexDigit 0 = '0' := rfl
    simp [natHexDigits, h, h1, h2, h3]
  · simp [natHexDigits, h]

theorem display_eq_pairs {T : Type} (h : Hash T) :
    Hash.display h = h.digest.flatMap (fun b => [hexDigit (b / 16), hexDigit (b % 16)]) := by
  unfold Hash.display
  rw [display_foldl, List.nil_append]
  induction h.digest with
  | nil => rfl
  | cons b l ih => simp only [List.flatMap_cons, chunk_eq b, ih]

theorem pairs_length (l : List Nat) :
    (l.flatMap (fun b => [hexDigit (b / 16), hexDigit (b % 16)])).length = 2 * l.length := by
  induction l with
  | nil => simp
  | cons b l ih =>
    simp [List.flatMap_cons, ih]
    omega

/-- C7: the display rendering of a hash writes each digest byte as
exactly two lowercase hexadecimal digits, zero-padded, concatenated
without separators; on a 32-byte digest the output has 64 characters,
and an all-zero digest renders as 64 zero characters. -/
theorem claim_C7 :
    (∀ (T : Type) (h : Hash T), (∀ b ∈ h.digest, b < 256) → h.digest.length = 32 →
      Hash.display h =
        h.digest.flatMap (fun b => [hexDigit (b / 16), hexDigit (b % 16)]) ∧
      (Hash.display h).length = 64 ∧
      (∀ c ∈ Hash.display h, c ∈ hexAlphabet)) ∧
    Hash.display ({ digest := List.replicate 32 0 } : Hash TxMark) =
      List.replicate 64 '0' := by
  constructor
  · intro T h hb hlen
    have hd := display_eq_pairs h
    refine ⟨hd, ?_, ?_⟩
    · rw [hd, pairs_length, hlen]
    · intro c hc
      rw [hd] at hc
      rw [List.mem_flatMap] at hc
      obtain ⟨b, hbl, hcb⟩ := hc
      have hb256 : b < 256 := hb b hbl
      have : c = hexDigit (b / 16) ∨ c = hexDigit (b % 16) := by
        simpa using hcb
      rcases this with h1 | h1
      · rw [h1]; exact hexDigit_mem (by omega)
      · rw [h1]; exact hexDigit_mem (by omega)
  · decide

/-- C7 witness: the rendering shape and the 64-character length on the
all-zero digest. -/
theorem claim_C7_witness :
    Hash.display ({ digest := List.replicate 32 0 } : Hash TxMark) =
      (List.replicate 32 0).flatMap (fun b => [hexDigit (b / 16), hexDigit (b % 16)]) ∧
    (Hash.display ({ digest := List.replicate 32 0 } : Hash TxMark)).length = 64 :=
  have h := claim_C7.1 TxMark { digest := List.replicate 32 0 } (by decide) (by decide)
  ⟨h.1, h.2.1⟩

/-- The conformance vector with its trailing checksum byte corrupted
(`0x4a` changed to `0x4b`), used to exhibit checksum-failure
propagation. -/
def TX_OUT_badcrc : List Nat :=
  [0x82, 0x82, 0xd8, 0x18, 0x58, 0x29, 0x83, 0x58, 0x1c, 0x83, 0xee, 0xa1,
   0xb5, 0xec, 0x8e, 0x80, 0x26, 0x65, 0x81, 0x46, 0x4a, 0xee, 0x0e, 0x2d,
   0x6a, 0x45, 0xfd, 0x6d, 0x7b, 0x9e, 0x1a, 0x98, 0x3a, 0x50, 0x48, 0xcd,
   0x15, 0xa1, 0x01, 0x46, 0x45, 0x01, 0x02, 0x03, 0x04, 0x05, 0x00, 0x1a,
   0x9d, 0x45, 0x88, 0x4b, 0x18, 0x2a]

/-- C6: `TxOut.decode` fails with the malformed-structure error whenever
the outer array count is not 2 (whatever follows), propagates any
failure (such as a checksum mismatch) of the checksum-wrapped address
sub-decode and any failure (such as out-of-bounds) of the coin
sub-decode, and succeeds only when the count is 2 and both sub-decodes
succeed. -/
theorem claim_C6 :
    (∀ (buf : List Nat) (l : Nat) (rest : List Nat),
      cbor.decode.array_start buf = .ok (l, rest) → l ≠ 2 →
      TxOut.decode buf = .error (.Custom "TxOut should contains 2 elements")) ∧
    (∀ (buf rest : List Nat) (e : cbor.decode.Error),
      cbor.decode.array_start buf = .ok (2, rest) →
      cbor.hs.util.decode_with_crc32 address.ExtendedAddr.decode rest = .error e →
      TxOut.decode buf = .error e) ∧
    (∀ (buf rest : List Nat) (addr : address.ExtendedAddr) (rest2 : List Nat)
        (e : cbor.decode.Error),
      cbor.decode.array_start buf = .ok (2, rest) →
      cbor.hs.util.decode_with_crc32 address.ExtendedAddr.decode rest = .ok (addr, rest2) →
      Coin.decode rest2 = .error e →
      TxOut.decode buf = .error e) ∧
    (∀ (buf : List Nat) (t : TxOut) (rest3 : List Nat),
      TxOut.decode buf = .ok (t, rest3) →
      ∃ rest rest2 : List Nat,
        cbor.decode.array_start buf = .ok (2, rest) ∧
        cbor.hs.util.decode_with_crc32 address.ExtendedAddr.decode rest =
          .ok (t.address, rest2) ∧
        Coin.decode rest2 = .ok (t.value, rest3)) := by
  refine ⟨fun buf l rest h1 h2 => ?_, fun buf rest e h1 h2 => ?_,
    fun buf rest addr rest2 e h1 h2 h3 => ?_, fun buf t rest3 hdec => ?_⟩
  · simp [TxOut.decode, h1, h2]
  · simp [TxOut.decode, h1, h2]
  · simp [TxOut.decode, h1, h2, h3]
  · unfold TxOut.decode at hdec
    split at hdec
    · simp at hdec
    next l rest h1 =>
      by_cases hl : l = 2
      · subst hl
        rw [if_neg (by simp)] at hdec
        split at hdec
        · simp at hdec
        next addr rest2 h2 =>
          split at hdec
          · simp at hdec
          next value rest3x h3 =>
            simp only [Except.ok.injEq, Prod.mk.injEq] at hdec
            obtain ⟨ht, hr⟩ := hdec
            subst hr
            refine ⟨rest, rest2, h1, ?_, ?_⟩
            · rw [← ht]
              exact h2
            · rw [← ht]
              exact h3
      · rw [if_pos hl] at hdec
        simp at hdec

/-- C6 witness: the three failure modes and the success characterization
on concrete buffers: a 3-element framing, the corrupted-checksum vector,
an out-of-bounds coin, and the genuine vector. -/
theorem claim_C6_witness :
    TxOut.decode [0x83] = .error (.Custom "TxOut should contains 2 elements") ∧
    TxOut.decode TX_OUT_badcrc = .error (.Custom "Invalid CRC32") ∧
    TxOut.decode (cbor.encode.array_start 2 ++
      cbor.hs.util.encode_with_crc32 address.ExtendedAddr.encode sampleAddr ++
      cbor.encode.uint 45000000000000001) = .error (.Custom "Coin out of bound") ∧
    (∃ rest rest2 : List Nat,
      cbor.decode.array_start TX_OUT = .ok (2, rest) ∧
      cbor.hs.util.decode_with_crc32 address.ExtendedAddr.decode rest =
        .ok (sampleTxOut.address, rest2) ∧
      Coin.decode rest2 = .ok (sampleTxOut.value, [])) :=
  ⟨claim_C6.1 [0x83] 3 [] (by decide) (by decide),
   claim_C6.2.1 TX_OUT_badcrc (List.drop 1 TX_OUT_badcrc) (.Custom "Invalid CRC32")
     (by decide) (by decide),
   claim_C6.2.2.1 (cbor.encode.array_start 2 ++
       cbor.hs.util.encode_with_crc32 address.ExtendedAddr.encode sampleAddr ++
       cbor.encode.uint 45000000000000001)
     (cbor.hs.util.encode_with_crc32 address.ExtendedAddr.encode sampleAddr ++
       cbor.encode.uint 45000000000000001)
     sampleAddr (cbor.encode.uint 45000000000000001) (.Custom "Coin out of bound")
     (by decide) (by decide) (by decide),
   claim_C6.2.2.2 TX_OUT sampleTxOut [] (by decide)⟩
